import Mathlib

/-!
Verification development for the `init` command of the ccds scaffolder
(`cmd/init.go` and the `internal/paths` package).

The Go code is embedded shallowly:

* The filesystem is a state `FS`: a list of existing directories (relative
  paths, ancestor-closed by construction of `mkdirAll`), an association list
  of files (path, content), and the durable persisted configuration
  (`utils.WriteConfig` target), modelled as an `Option Config`.
* Fallible operations return `Except`; an error carries the state at the
  point of failure, mirroring the fact that the Go code does not roll back.
* Every side-effecting step also records an `Eff` event, so that ordering
  claims ("X happens before Y") are statements about the produced trace.
* `os.Stdin` is a stream `Nat → String` of already-chomped lines
  (`bufio.Reader.ReadString` errors are discarded by `getInput`; at end of
  file a read yields the empty string).  `time.Now().Year()` is a `Nat`
  parameter, `exec.LookPath "git"` a `Bool` parameter, and the working
  directory (`os.Getwd`, assumed to succeed) a `String` parameter of the
  environment.
* Interactive prompt loops are given explicit fuel for their re-prompt
  recursion; the first read of a loop needs no fuel, so fuel only bounds the
  number of rejected inputs.  Exhausted fuel is a distinguished outcome.
-/

namespace Ccds

/-- The resolved project configuration (the viper keys `ProjectRoot`,
`Author`, `License`, `PrimaryLanguage`). -/
structure Config where
  projectRoot : String
  author : String
  license : String
  primaryLanguage : String
deriving DecidableEq, Repr

/-- Filesystem state: existing directories, files (path with content), and
the durable persisted configuration store. -/
structure FS where
  dirs : List String
  files : List (String × String)
  durable : Option Config
deriving DecidableEq, Repr

def FS.empty : FS := ⟨[], [], none⟩

/-- `ioutil.ReadDir(projectRoot)` returns no entries. -/
def FS.isEmpty (fs : FS) : Bool := fs.dirs.isEmpty && fs.files.isEmpty

def hasKey (files : List (String × String)) (p : String) : Bool :=
  files.any (fun kv => kv.1 = p)

/-- Write content `c` at path `p`: replace the entries at `p` if the path
exists, otherwise append a new entry (creation). -/
def putEntries (p c : String) (files : List (String × String)) :
    List (String × String) :=
  if hasKey files p then
    files.map (fun kv => if kv.1 = p then (p, c) else kv)
  else
    files ++ [(p, c)]

/-- Split a list of characters at `/` separators. -/
def splitSlash : List Char → List (List Char)
  | [] => [[]]
  | c :: cs =>
    let r := splitSlash cs
    if c = '/' then [] :: r
    else
      match r with
      | [] => [[c]]
      | h :: t => (c :: h) :: t

/-- Cumulative joins: `prefixJoins [a, b, c] = [a, a/b, a/b/c]`. -/
def prefixJoins : List String → List String
  | [] => []
  | x :: xs => x :: (prefixJoins xs).map (fun s => x ++ "/" ++ s)

/-- All prefixes of a relative path, innermost last; the path itself is the
last element.  `os.MkdirAll` creates exactly these directories. -/
def ancestors (p : String) : List String :=
  prefixJoins ((splitSlash p.data).map (fun l => String.mk l))

def addDirList (ds : List String) (dirs : List String) : List String :=
  ds.foldl (fun acc d => if d ∈ acc then acc else acc ++ [d]) dirs

/-- `os.MkdirAll(d, os.ModePerm)`: create `d` and all missing parents;
an already-existing directory is not an error, but a path component that
exists as a regular file is. -/
def mkdirAll (d : String) (fs : FS) : Except String FS :=
  if (ancestors d).any (fun a => hasKey fs.files a) then
    .error ("failed to create directory " ++ d)
  else
    .ok { fs with dirs := addDirList (ancestors d) fs.dirs }

/-- `os.Create(path)` followed by `Close`: create the file, or truncate it to
empty if it already exists; fails if the path is a directory.  (Parent
existence is guaranteed at every call site, which runs just after the
`MkdirAll` of the parent.) -/
def createEmpty (p : String) (fs : FS) : Except String FS :=
  if p ∈ fs.dirs then
    .error ("failed to create file " ++ p)
  else
    .ok { fs with files := putEntries p "" fs.files }

/-- Write rendered content to a destination path, overwriting an existing
file; fails if the destination exists as a directory.  This is the
filesystem half of `templates.Write` (the rendering collaborator is a
parameter everywhere it is used). -/
def writeDest (dest content : String) (fs : FS) : Except String FS :=
  if dest ∈ fs.dirs then
    .error ("failed to write " ++ dest)
  else
    .ok { fs with files := putEntries dest content fs.files }

/-- Side effects of a run, in order of occurrence. -/
inductive Eff
  | readDirRoot
  | promptConfirm
  | promptAuthor
  | promptLicenseMenu
  | promptLanguageMenu
  | setConfig (key val : String)
  | mkdir (d : String)
  | createFile (p : String)
  | writeTemplate (src dest : String)
  | writeDurable
  | git (args : List String)
deriving DecidableEq, Repr

/-- Effects that change the filesystem or invoke the version-control
binary; prompts, reads and in-memory `viper.Set` do not. -/
def Eff.isFsWrite : Eff → Bool
  | .mkdir _ => true
  | .createFile _ => true
  | .writeTemplate _ _ => true
  | .writeDurable => true
  | .git _ => true
  | _ => false

/-- Run effectful steps in sequence, stopping at the first error; the trace
records the effects attempted so far, and an error carries the state at the
point of failure. -/
def foldSteps (step : FS → α → Except (String × FS) FS × List Eff) :
    List α → FS → Except (String × FS) FS × List Eff
  | [], fs => (.ok fs, [])
  | x :: xs, fs =>
    match step fs x with
    | (.error e, t) => (.error e, t)
    | (.ok fs1, t) =>
      let r := foldSteps step xs fs1
      (r.1, t ++ r.2)

/-- The fixed directory catalog of `createSkeleton`, in source order; the
boolean says whether a `.gitkeep` placeholder is created inside. -/
def skeletonDirs : List (String × Bool) :=
  [(".ccds", false),
   ("data", false),
   ("data/external", true),
   ("data/interim", true),
   ("data/processed", true),
   ("data/raw", true),
   ("docs", true),
   ("models", true),
   ("notebooks", true),
   ("references", true),
   ("reports", false),
   ("reports/figures", true),
   ("src", false),
   ("src/datasets", true),
   ("src/features", true),
   ("src/models", true),
   ("src/scripts", true),
   ("src/visualization", true)]

/-- One iteration of the directory loop of `createSkeleton`: `MkdirAll`,
then a `.gitkeep` placeholder when flagged. -/
def dirStep (fs : FS) (e : String × Bool) :
    Except (String × FS) FS × List Eff :=
  match mkdirAll e.1 fs with
  | .error m => (.error (m, fs), [.mkdir e.1])
  | .ok fs1 =>
    if e.2 then
      match createEmpty (e.1 ++ "/.gitkeep") fs1 with
      | .error m => (.error (m, fs1), [.mkdir e.1, .createFile (e.1 ++ "/.gitkeep")])
      | .ok fs2 => (.ok fs2, [.mkdir e.1, .createFile (e.1 ++ "/.gitkeep")])
    else
      (.ok fs1, [.mkdir e.1])

/-- `filepath.Join` for the paths arising here (no `.`/`..` cleaning is
needed on the inputs the program produces). -/
def filepathJoin (a b : String) : String :=
  if a = "" then b else if b = "" then a else a ++ "/" ++ b

/-- `filepath.IsAbs` on Unix: the path starts with `/`. -/
def isAbs (s : String) : Bool :=
  s.data.head? == some '/'

namespace paths

def DockerCompose (rootPath : String) : String :=
  filepathJoin rootPath "docker-compose.yml"

def Dockerfile (rootPath : String) : String :=
  filepathJoin rootPath "Dockerfile"

def Scripts (rootPath : String) : String :=
  filepathJoin rootPath "src/scripts"

end paths

/-- The universal tier of the `files` map of `createSkeleton`: template
source → destination.  Note that the `.gitignore` destination is the bare
relative name, while the Docker files are joined with the project root. -/
def universalFiles (projectRoot language : String) : List (String × String) :=
  [("gitignore/" ++ language, ".gitignore"),
   ("docker/Dockerfile", paths.Dockerfile projectRoot),
   ("docker/docker-compose.yml", paths.DockerCompose projectRoot)]

/-- The merge `files[k] = v` of the language catalog into the universal
tier: a catalog entry with the same template key overrides. -/
def mergeFiles (univ cat : List (String × String)) : List (String × String) :=
  univ.filter (fun kv => !(cat.any (fun c => c.1 = kv.1))) ++ cat

def skeletonFiles (catalog : String → List (String × String))
    (projectRoot language : String) : List (String × String) :=
  mergeFiles (universalFiles projectRoot language) (catalog language)

/-- One iteration of the file loop of `createSkeleton`: render the template
named by the source key against an empty data record and write it to the
destination. -/
def fileStep (render : String → String) (fs : FS) (e : String × String) :
    Except (String × FS) FS × List Eff :=
  match writeDest e.2 (render e.1) fs with
  | .error m => (.error (m, fs), [.writeTemplate e.1 e.2])
  | .ok fs1 => (.ok fs1, [.writeTemplate e.1 e.2])

/-- `utils.WriteConfig()`: persist the resolved configuration to the durable
store. -/
def writeDurableConfig (cfg : Config) (fs : FS) : FS :=
  { fs with durable := some cfg }

/-- `createSkeleton`: the directory loop (with placeholders), then the file
loop, then the durable configuration write. -/
def createSkeleton (render : String → String)
    (catalog : String → List (String × String)) (cfg : Config) (fs : FS) :
    Except (String × FS) FS × List Eff :=
  match foldSteps dirStep skeletonDirs fs with
  | (.error e, t) => (.error e, t)
  | (.ok fs1, t) =>
    match foldSteps (fileStep render)
        (skeletonFiles catalog cfg.projectRoot cfg.primaryLanguage) fs1 with
    | (.error e, t2) => (.error e, t ++ t2)
    | (.ok fs2, t2) =>
      (.ok (writeDurableConfig cfg fs2), t ++ t2 ++ [.writeDurable])

/-- The data record passed to the license template (`{Year, Author}`). -/
structure LicenseData where
  year : String
  author : String
deriving DecidableEq, Repr

/-- `writeLicense`: nothing for `"None"`, otherwise render
`licenses/<license>` with the current year and the author and write it to
the fixed destination `LICENSE`. -/
def writeLicense (renderL : String → LicenseData → String) (year : Nat)
    (author license : String) (fs : FS) :
    Except (String × FS) FS × List Eff :=
  if license = "None" then
    (.ok fs, [])
  else
    match writeDest "LICENSE"
        (renderL ("licenses/" ++ license) ⟨toString year, author⟩) fs with
    | .error m =>
      (.error (m, fs), [.writeTemplate ("licenses/" ++ license) "LICENSE"])
    | .ok fs1 =>
      (.ok fs1, [.writeTemplate ("licenses/" ++ license) "LICENSE"])

/-- The fixed commit narrative of `initRepo`: staged paths and message, in
source order. -/
def commitPlan : List (List String × String) :=
  [([".ccds"], "Add ccds config directory"),
   ([".gitignore", "LICENSE"], "Add standard repo files"),
   (["Dockerfile", "docker-compose.yml"], "Add Docker configuration for Jupyter"),
   (["data"], "Add directory for storing datasets"),
   (["docs"], "Add directory for storing documentation"),
   (["models"], "Add directory for storing models"),
   (["notebooks"], "Add directory for storing notebooks"),
   (["references"], "Add directory for storing references"),
   (["reports"], "Add directory for storing reports"),
   (["src"], "Add directory for storing source code")]

/-- The `git add`/`git commit -m` invocations of the ten stage-then-commit
steps (`gitAdd`/`gitCommit` swallow the exit status, so every step is
attempted). -/
def commitEffects : List Eff :=
  commitPlan.flatMap (fun pm => [.git ("add" :: pm.1), .git ["commit", "-m", pm.2]])

/-- `initRepo`: refuse when a `.git` directory exists at the tree root,
require the `git` executable on the search path, run `git init`, then the
fixed commit narrative.  `gitOnPath` models `exec.LookPath("git")` and
`gitInitOk` the exit status of `git init`. -/
def initRepo (gitOnPath gitInitOk : Bool) (fs : FS) :
    Except String Unit × List Eff :=
  if ".git" ∈ fs.dirs then
    (.error "git repo already exists", [])
  else if !gitOnPath then
    (.error "git not found in path", [])
  else if !gitInitOk then
    (.error "failed to initialize git repo", [.git ["init"]])
  else
    (.ok (), .git ["init"] :: commitEffects)

/-! ### The configuration resolver (`initCmd.Run`) -/

/-- The fixed license catalog. -/
def licenses : List String := ["MIT", "BSD-3-Clause", "None"]

/-- Modelled from the spec: `internal/languages` is not under `src/`.  The
spec fixes only that the supported-language set is an ordered, open catalog
whose first entry is the canonical default, and its scenarios use `python`;
it names no further members. -/
def languagesSupported : List String := ["python", "R"]

/-- Modelled from the spec: the per-language starter-file catalogs
(`languages.InitFiles`) are not under `src/`.  The spec requires only that
a project has "zero or more language-specific starter files" and that
unknown languages contribute an empty extension. -/
def languagesInitFiles : String → List (String × String) := fun _ => []

/-- `strconv.Atoi`: an optional sign followed by at least one decimal
digit, and nothing else.  (Values here are small, so overflow is moot.) -/
def digitsVal (l : List Char) : Option Nat :=
  l.foldl
    (fun acc c =>
      match acc with
      | none => none
      | some n => if c.isDigit then some (n * 10 + (c.toNat - 48)) else none)
    (some 0)

def atoi (s : String) : Option Int :=
  match s.data with
  | [] => none
  | '+' :: rest =>
    if rest = [] then none else (digitsVal rest).map Int.ofNat
  | '-' :: rest =>
    if rest = [] then none else (digitsVal rest).map (fun n => -(n : Int))
  | l => (digitsVal l).map Int.ofNat

/-- The acceptance test of the license menu loop: `strconv.Atoi` succeeds
and `0 < choice ≤ len(licenses)`; the selected license. -/
def licenseChoice (s : String) : Option String :=
  match atoi s with
  | some n =>
    if 0 < n ∧ n ≤ (licenses.length : Int) then
      some (licenses.getD (n - 1).toNat "")
    else none
  | none => none

/-- The acceptance test of the language menu loop (an empty input is handled
separately by the loop: it selects the default). -/
def languageChoice (s : String) : Option String :=
  match atoi s with
  | some n =>
    if 0 < n ∧ n ≤ (languagesSupported.length : Int) then
      some (languagesSupported.getD (n - 1).toNat "")
    else none
  | none => none

/-- Process outcome: normal success, the explicit `os.Exit(0)` of a declined
confirmation, `log.Fatal` with its message, or exhausted loop fuel. -/
inductive Outcome
  | ok
  | exit0
  | fatal (msg : String)
  | outOfFuel
deriving DecidableEq, Repr

/-- Command-line flags of `init`. -/
structure Flags where
  author : String
  license : String
  language : String
  force : Bool
  nonInteractive : Bool
deriving DecidableEq, Repr

/-- The ambient world of a run: persisted configuration visible at start,
working directory, input stream (chomped lines; reads at end of file yield
`""`), the clock year, the rendering collaborator for skeleton templates and
license templates, the language starter-file catalog, and the state of the
external `git` binary. -/
structure Env where
  persistedProjectRoot : String
  cwd : String
  inputs : Nat → String
  year : Nat
  render : String → String
  renderL : String → LicenseData → String
  catalog : String → List (String × String)
  gitOnPath : Bool
  gitInitOk : Bool

/-- `getInput`: fail at once in non-interactive mode, otherwise read a line
(discarding the read error) and chomp it. -/
def getInput (env : Env) (flags : Flags) (cursor : Nat) :
    Except Outcome (String × Nat) :=
  if flags.nonInteractive then
    .error (.fatal "\nerror: input required in non-interactive mode")
  else
    .ok (env.inputs cursor, cursor + 1)

/-- The `[y/N]` confirmation loop of the non-empty-directory gate. -/
def confirmLoop (env : Env) (flags : Flags) (cursor fuel : Nat) :
    Except Outcome Nat :=
  match getInput env flags cursor with
  | .error o => .error o
  | .ok (input, c1) =>
    if input = "y" then .ok c1
    else if input = "n" ∨ input = "" then .error .exit0
    else
      match fuel with
      | 0 => .error .outOfFuel
      | f + 1 => confirmLoop env flags c1 f

/-- The license selection loop: re-prompt silently until the input parses to
a valid 1-based index. -/
def licenseLoop (env : Env) (flags : Flags) (cursor fuel : Nat) :
    Except Outcome (String × Nat) :=
  match getInput env flags cursor with
  | .error o => .error o
  | .ok (input, c1) =>
    match licenseChoice input with
    | some l => .ok (l, c1)
    | none =>
      match fuel with
      | 0 => .error .outOfFuel
      | f + 1 => licenseLoop env flags c1 f

/-- The language selection loop: an empty input selects the first supported
language, otherwise re-prompt until a valid 1-based index. -/
def languageLoop (env : Env) (flags : Flags) (cursor fuel : Nat) :
    Except Outcome (String × Nat) :=
  match getInput env flags cursor with
  | .error o => .error o
  | .ok (input, c1) =>
    if input = "" then .ok (languagesSupported.getD 0 "", c1)
    else
      match languageChoice input with
      | some l => .ok (l, c1)
      | none =>
        match fuel with
        | 0 => .error .outOfFuel
        | f + 1 => languageLoop env flags c1 f

/-- The non-empty-directory gate: `ReadDir`, then a confirmation prompt
unless the directory is empty or `--force` was given.  Returns the input
cursor after the gate. -/
def gatePhase (env : Env) (flags : Flags) (fs0 : FS) (fuel : Nat) :
    Except Outcome Nat × List Eff :=
  if !fs0.isEmpty && !flags.force then
    match confirmLoop env flags 0 fuel with
    | .error o => (.error o, [.readDirRoot, .promptConfirm])
    | .ok c => (.ok c, [.readDirRoot, .promptConfirm])
  else
    (.ok 0, [.readDirRoot])

/-- Author resolution: the flag if present, else one freeform prompt (an
empty answer is accepted). -/
def authorPhase (env : Env) (flags : Flags) (cursor : Nat) :
    Except Outcome (String × Nat) × List Eff :=
  if flags.author = "" then
    match getInput env flags cursor with
    | .error o => (.error o, [.promptAuthor])
    | .ok (a, c1) => (.ok (a, c1), [.promptAuthor])
  else
    (.ok (flags.author, cursor), [])

/-- License resolution: menu loop when the flag is absent; otherwise the
flag must be a member of the catalog (`utils.Contains` is exact,
case-sensitive membership) or the run dies with `unknown license`. -/
def licensePhase (env : Env) (flags : Flags) (cursor fuel : Nat) :
    Except Outcome (String × Nat) × List Eff :=
  if flags.license = "" then
    match licenseLoop env flags cursor fuel with
    | .error o => (.error o, [.promptLicenseMenu])
    | .ok (l, c1) => (.ok (l, c1), [.promptLicenseMenu])
  else if flags.license ∈ licenses then
    (.ok (flags.license, cursor), [])
  else
    (.error (.fatal "unknown license"), [])

/-- Language resolution: same two-path pattern, with the empty-input
default inside the loop. -/
def languagePhase (env : Env) (flags : Flags) (cursor fuel : Nat) :
    Except Outcome (String × Nat) × List Eff :=
  if flags.language = "" then
    match languageLoop env flags cursor fuel with
    | .error o => (.error o, [.promptLanguageMenu])
    | .ok (l, c1) => (.ok (l, c1), [.promptLanguageMenu])
  else if flags.language ∈ languagesSupported then
    (.ok (flags.language, cursor), [])
  else
    (.error (.fatal "unknown language"), [])

/-- The observable result of one `init` run. -/
structure RunResult where
  outcome : Outcome
  fs : FS
  trace : List Eff
  mem : Config
deriving Repr

/-- `initCmd.Run`: the full control flow of the `init` command.  `mem` is
the process-wide in-memory configuration (`viper.Set` state); the durable
store is the `durable` field of the filesystem state. -/
def runInit (env : Env) (flags : Flags) (fs0 : FS) (fuel : Nat) : RunResult :=
  let mem0 : Config :=
    { projectRoot := env.persistedProjectRoot, author := "", license := "",
      primaryLanguage := "" }
  if env.persistedProjectRoot ≠ "" then
    { outcome := .fatal "Project has already been initialized", fs := fs0,
      trace := [], mem := mem0 }
  else
    match gatePhase env flags fs0 fuel with
    | (.error o, t0) => { outcome := o, fs := fs0, trace := t0, mem := mem0 }
    | (.ok c0, t0) =>
      let mem1 := { mem0 with projectRoot := env.cwd }
      let t1 := t0 ++ [Eff.setConfig "ProjectRoot" env.cwd]
      match authorPhase env flags c0 with
      | (.error o, ta) =>
        { outcome := o, fs := fs0, trace := t1 ++ ta, mem := mem1 }
      | (.ok (author, c1), ta) =>
        match licensePhase env flags c1 fuel with
        | (.error o, tl) =>
          { outcome := o, fs := fs0, trace := t1 ++ ta ++ tl, mem := mem1 }
        | (.ok (license, c2), tl) =>
          match languagePhase env flags c2 fuel with
          | (.error o, tg) =>
            { outcome := o, fs := fs0, trace := t1 ++ ta ++ tl ++ tg,
              mem := mem1 }
          | (.ok (language, _), tg) =>
            let cfg : Config :=
              { projectRoot := env.cwd, author := author, license := license,
                primaryLanguage := language }
            let pre := t1 ++ ta ++ tl ++ tg ++
              [Eff.setConfig "Author" author, Eff.setConfig "License" license,
               Eff.setConfig "PrimaryLanguage" language]
            match createSkeleton env.render env.catalog cfg fs0 with
            | (.error (m, fsE), ts) =>
              { outcome := .fatal m, fs := fsE, trace := pre ++ ts, mem := cfg }
            | (.ok fs1, ts) =>
              match writeLicense env.renderL env.year author license fs1 with
              | (.error (m, fsE), tw) =>
                { outcome := .fatal m, fs := fsE, trace := pre ++ ts ++ tw,
                  mem := cfg }
              | (.ok fs2, tw) =>
                match initRepo env.gitOnPath env.gitInitOk fs2 with
                | (.error m, tr) =>
                  { outcome := .fatal m, fs := fs2,
                    trace := pre ++ ts ++ tw ++ tr, mem := cfg }
                | (.ok _, tr) =>
                  { outcome := .ok, fs := fs2,
                    trace := pre ++ ts ++ tw ++ tr, mem := cfg }

/-! ### Concrete instances used by witnesses and counterexamples -/

def demoRender : String → String := fun s => "tpl:" ++ s

/-- Modelled from the spec: the license template assets and the rendering
engine (`internal/templates`, `assets/licenses/...`) are not under `src/`.
The spec states that rendering the template named after the license with
`{Year, Author}` yields license text carrying the supplied author string
and the current four-digit year. -/
def renderLicenseModel (src : String) (d : LicenseData) : String :=
  src ++ "\nCopyright (c) " ++ d.year ++ " " ++ d.author

def demoEnv : Env :=
  { persistedProjectRoot := "", cwd := "/proj", inputs := fun _ => "",
    year := 2026, render := demoRender, renderL := renderLicenseModel,
    catalog := languagesInitFiles, gitOnPath := true, gitInitOk := true }

def demoFlags : Flags :=
  { author := "Ada", license := "MIT", language := "python", force := true,
    nonInteractive := false }

/-- Substring containment on the underlying character lists. -/
def containsStr (s t : String) : Prop := t.data <:+: s.data

/-! ### Helper lemmas -/

theorem foldSteps_trace_forall {α : Type} (P : Eff → Prop)
    (step : FS → α → Except (String × FS) FS × List Eff)
    (hstep : ∀ fs x, ∀ e ∈ (step fs x).2, P e) :
    ∀ (l : List α) (fs : FS), ∀ e ∈ (foldSteps step l fs).2, P e := by
  intro l
  induction l with
  | nil => intro fs e he; simp [foldSteps] at he
  | cons x xs ih =>
    intro fs e he
    unfold foldSteps at he
    rcases hs : step fs x with ⟨err | fs1, t⟩
    · rw [hs] at he
      exact hstep fs x e (by rw [hs]; exact he)
    · simp only [hs, List.mem_append] at he
      rcases he with he | he
      · exact hstep fs x e (by rw [hs]; exact he)
      · exact ih fs1 e he

theorem dirStep_effects (fs : FS) (x : String × Bool) :
    ∀ e ∈ (dirStep fs x).2,
      (∃ d, e = .mkdir d) ∨ (∃ p, e = .createFile p) := by
  intro e he
  unfold dirStep at he
  rcases hm : mkdirAll x.1 fs with m | fs1 <;> rw [hm] at he
  · simp at he; exact .inl ⟨x.1, he⟩
  · by_cases hk : x.2
    · simp only [hk, if_true] at he
      rcases hc : createEmpty (x.1 ++ "/.gitkeep") fs1 with m | fs2 <;>
        rw [hc] at he <;> simp at he <;>
        rcases he with he | he
      · exact .inl ⟨x.1, he⟩
      · exact .inr ⟨x.1 ++ "/.gitkeep", he⟩
      · exact .inl ⟨x.1, he⟩
      · exact .inr ⟨x.1 ++ "/.gitkeep", he⟩
    · simp only [hk, if_false] at he
      simp at he; exact .inl ⟨x.1, he⟩

theorem fileStep_effects (render : String → String) (fs : FS)
    (x : String × String) :
    ∀ e ∈ (fileStep render fs x).2, ∃ s d, e = .writeTemplate s d := by
  intro e he
  unfold fileStep at he
  rcases hw : writeDest x.2 (render x.1) fs with m | fs1 <;> rw [hw] at he <;>
    simp at he <;> exact ⟨x.1, x.2, he⟩

/-- Every effect of `createSkeleton` is a directory creation, a placeholder
file creation, a template write, or the final durable-configuration
write. -/
theorem createSkeleton_effects (render : String → String)
    (catalog : String → List (String × String)) (cfg : Config) (fs : FS) :
    ∀ e ∈ (createSkeleton render catalog cfg fs).2,
      (∃ d, e = .mkdir d) ∨ (∃ p, e = .createFile p) ∨
      (∃ s d, e = .writeTemplate s d) ∨ e = .writeDurable := by
  intro e he
  unfold createSkeleton at he
  rcases h1 : foldSteps dirStep skeletonDirs fs with ⟨err1 | fsD, t1⟩
  · rw [h1] at he
    rcases foldSteps_trace_forall _ dirStep dirStep_effects skeletonDirs fs e
      (by rw [h1]; exact he) with h | h
    · exact .inl h
    · exact .inr (.inl h)
  · have ht1 : ∀ e ∈ t1, (∃ d, e = Eff.mkdir d) ∨ (∃ p, e = Eff.createFile p) := by
      intro e' he'
      exact foldSteps_trace_forall _ dirStep dirStep_effects skeletonDirs fs e'
        (by rw [h1]; exact he')
    rcases h2 : foldSteps (fileStep render)
        (skeletonFiles catalog cfg.projectRoot cfg.primaryLanguage) fsD with ⟨err2 | fsF, t2⟩
    · have ht2 : ∀ e ∈ t2, ∃ s d, e = Eff.writeTemplate s d := by
        intro e' he'
        exact foldSteps_trace_forall _ (fileStep render) (fileStep_effects render)
          _ fsD e' (by rw [h2]; exact he')
      simp only [h1, h2, List.mem_append] at he
      rcases he with he | he
      · rcases ht1 e he with h | h
        · exact .inl h
        · exact .inr (.inl h)
      · exact .inr (.inr (.inl (ht2 e he)))
    · have ht2 : ∀ e ∈ t2, ∃ s d, e = Eff.writeTemplate s d := by
        intro e' he'
        exact foldSteps_trace_forall _ (fileStep render) (fileStep_effects render)
          _ fsD e' (by rw [h2]; exact he')
      simp only [h1, h2, List.mem_append, List.mem_singleton] at he
      rcases he with (he | he) | he
      · rcases ht1 e he with h | h
        · exact .inl h
        · exact .inr (.inl h)
      · exact .inr (.inr (.inl (ht2 e he)))
      · exact .inr (.inr (.inr he))

theorem isAbs_append (s t : String) (h : isAbs s = true) :
    isAbs (s ++ t) = true := by
  unfold isAbs at *
  rw [String.data_append]
  cases hd : s.data with
  | nil => rw [hd] at h; simp at h
  | cons c cs =>
    rw [hd] at h
    rw [List.cons_append]
    simpa using h

theorem ne_empty_of_isAbs (s : String) (h : isAbs s = true) : s ≠ "" := by
  intro he
  subst he
  simp [isAbs] at h

/-! ### Claims -/

/-- C2: if the persisted configuration already holds a non-empty
`ProjectRoot`, the run dies at once with "Project has already been
initialized": the filesystem is untouched, the trace is empty (no prompt,
no directory creation, no repository operation), and the in-memory
configuration is the initial one. -/
theorem c2_already_initialized (env : Env) (flags : Flags) (fs0 : FS)
    (fuel : Nat) (h : env.persistedProjectRoot ≠ "") :
    runInit env flags fs0 fuel =
      { outcome := .fatal "Project has already been initialized", fs := fs0,
        trace := [],
        mem := { projectRoot := env.persistedProjectRoot, author := "",
                 license := "", primaryLanguage := "" } } := by
  simp [runInit, h]

theorem c2_already_initialized_witness :
    ("/old" : String) ≠ "" ∧
    runInit { demoEnv with persistedProjectRoot := "/old" } demoFlags
        FS.empty 0 =
      { outcome := .fatal "Project has already been initialized",
        fs := FS.empty, trace := [],
        mem := { projectRoot := "/old", author := "", license := "",
                 primaryLanguage := "" } } :=
  ⟨by decide,
   c2_already_initialized { demoEnv with persistedProjectRoot := "/old" }
     demoFlags FS.empty 0 (by decide)⟩

/-- C3: an execution that reaches repository initialization (no `.git`
directory at the root, `git` resolvable, `git init` succeeding) performs
exactly the fixed ordered ten stage-then-commit steps with their fixed
messages, the first commit being "Add ccds config directory"; the sequence
does not depend on the tree. -/
theorem c3_commit_narrative (fs : FS) (h : ".git" ∉ fs.dirs) :
    initRepo true true fs =
      (.ok (),
       [.git ["init"],
        .git ["add", ".ccds"],
        .git ["commit", "-m", "Add ccds config directory"],
        .git ["add", ".gitignore", "LICENSE"],
        .git ["commit", "-m", "Add standard repo files"],
        .git ["add", "Dockerfile", "docker-compose.yml"],
        .git ["commit", "-m", "Add Docker configuration for Jupyter"],
        .git ["add", "data"],
        .git ["commit", "-m", "Add directory for storing datasets"],
        .git ["add", "docs"],
        .git ["commit", "-m", "Add directory for storing documentation"],
        .git ["add", "models"],
        .git ["commit", "-m", "Add directory for storing models"],
        .git ["add", "notebooks"],
        .git ["commit", "-m", "Add directory for storing notebooks"],
        .git ["add", "references"],
        .git ["commit", "-m", "Add directory for storing references"],
        .git ["add", "reports"],
        .git ["commit", "-m", "Add directory for storing reports"],
        .git ["add", "src"],
        .git ["commit", "-m", "Add directory for storing source code"]]) := by
  simp [initRepo, h]
  decide

theorem c3_commit_narrative_witness :
    (".git" ∉ FS.empty.dirs) ∧
    (initRepo true true FS.empty).1 = .ok () :=
  ⟨by decide, by rw [c3_commit_narrative FS.empty (by decide)]⟩

/-- C9: `initRepo` fails with "git repo already exists" and performs no
version-control operation when a `.git` directory exists at the tree root;
with no such directory it fails with "git not found in path" before any
operation when the `git` executable is not on the search path; and the
repository is initialized (`git init` invoked) only when both checks
pass. -/
theorem c9_repo_preconditions (fs : FS) (gitOnPath gitInitOk : Bool) :
    (".git" ∈ fs.dirs →
      initRepo gitOnPath gitInitOk fs = (.error "git repo already exists", [])) ∧
    (".git" ∉ fs.dirs → gitOnPath = false →
      initRepo gitOnPath gitInitOk fs = (.error "git not found in path", [])) ∧
    (Eff.git ["init"] ∈ (initRepo gitOnPath gitInitOk fs).2 →
      ".git" ∉ fs.dirs ∧ gitOnPath = true) := by
  by_cases hg : ".git" ∈ fs.dirs
  · refine ⟨fun _ => by simp [initRepo, hg], fun hn _ => absurd hg hn, ?_⟩
    intro hm
    simp [initRepo, hg] at hm
  · refine ⟨fun hin => absurd hin hg, fun _ hp => by simp [initRepo, hg, hp], ?_⟩
    intro hm
    cases hp : gitOnPath with
    | false => simp [initRepo, hg, hp] at hm
    | true => exact ⟨hg, rfl⟩

theorem c9_repo_preconditions_witness :
    initRepo false false { dirs := [".git"], files := [], durable := none } =
      (.error "git repo already exists", []) ∧
    initRepo false false FS.empty = (.error "git not found in path", []) :=
  ⟨(c9_repo_preconditions { dirs := [".git"], files := [], durable := none }
      false false).1 (by decide),
   (c9_repo_preconditions FS.empty false false).2.1 (by decide) rfl⟩

/-- C5 counterexample: in the `files` map of `createSkeleton`, the
destination of the ignore-rules template is the bare relative name
`.gitignore`, not `ProjectRoot` joined with a relative name, and it is not
an absolute path. -/
theorem c5_gitignore_dest_cex :
    (universalFiles "/proj" "python").head? =
      some ("gitignore/python", ".gitignore") ∧
    (".gitignore" : String) ≠ filepathJoin "/proj" ".gitignore" ∧
    isAbs ".gitignore" = false := by decide

/-- C5 amended: the container definition and orchestration destinations are
`ProjectRoot` joined with the fixed names `Dockerfile` and
`docker-compose.yml` (absolute whenever `ProjectRoot` is), while the
ignore-rules destination is the fixed relative name `.gitignore`, resolved
against the working directory (which is the project root). -/
theorem c5_amended_universal_dests (root lang : String)
    (h : isAbs root = true) :
    universalFiles root lang =
      [("gitignore/" ++ lang, ".gitignore"),
       ("docker/Dockerfile", filepathJoin root "Dockerfile"),
       ("docker/docker-compose.yml", filepathJoin root "docker-compose.yml")] ∧
    isAbs (paths.Dockerfile root) = true ∧
    isAbs (paths.DockerCompose root) = true ∧
    isAbs ".gitignore" = false := by
  have hne : root ≠ "" := ne_empty_of_isAbs root h
  refine ⟨rfl, ?_, ?_, by decide⟩
  · unfold paths.Dockerfile filepathJoin
    rw [if_neg hne, if_neg (by decide : ("Dockerfile" : String) ≠ "")]
    exact isAbs_append (root ++ "/") "Dockerfile" (isAbs_append root "/" h)
  · unfold paths.DockerCompose filepathJoin
    rw [if_neg hne, if_neg (by decide : ("docker-compose.yml" : String) ≠ "")]
    exact isAbs_append (root ++ "/") "docker-compose.yml" (isAbs_append root "/" h)

/-- C1 counterexample: in a concrete successful execution (all flags
supplied, empty directory, `git` available), the first skeleton directory
is created as the sixth effect while the durable configuration store has
not been written at any point of that prefix, so a skeleton directory
exists on disk before the durable store is written. -/
theorem c1_durable_after_mkdir_cex :
    (runInit demoEnv demoFlags FS.empty 0).trace[5]? =
      some (Eff.mkdir ".ccds") ∧
    Eff.writeDurable ∉ (runInit demoEnv demoFlags FS.empty 0).trace.take 6 ∧
    (runInit demoEnv demoFlags FS.empty 0).outcome = Outcome.ok := by decide

/-- C1 amended: the resolved values reach the durable persisted store only
as the final effect of skeleton application: on success the skeleton trace
ends with the single durable write (every directory and file effect
precedes it), and on failure during skeleton application the durable store
is not written at all.  Before that point the resolved values live only in
the process-wide in-memory configuration. -/
theorem c1_amended_durable_last (render : String → String)
    (catalog : String → List (String × String)) (cfg : Config) (fs : FS) :
    (∀ fs1, (createSkeleton render catalog cfg fs).1 = .ok fs1 →
      ∃ t, (createSkeleton render catalog cfg fs).2 = t ++ [Eff.writeDurable] ∧
        Eff.writeDurable ∉ t) ∧
    (∀ e, (createSkeleton render catalog cfg fs).1 = .error e →
      Eff.writeDurable ∉ (createSkeleton render catalog cfg fs).2) := by
  have hdir : ∀ e ∈ (foldSteps dirStep skeletonDirs fs).2, e ≠ Eff.writeDurable := by
    intro e he
    rcases foldSteps_trace_forall _ dirStep dirStep_effects skeletonDirs fs e he with
      ⟨d, rfl⟩ | ⟨p, rfl⟩ <;> simp
  have hfile : ∀ fsD', ∀ e ∈ (foldSteps (fileStep render)
      (skeletonFiles catalog cfg.projectRoot cfg.primaryLanguage) fsD').2,
      e ≠ Eff.writeDurable := by
    intro fsD' e he
    rcases foldSteps_trace_forall _ (fileStep render) (fileStep_effects render)
      _ fsD' e he with ⟨s, d, rfl⟩
    simp
  unfold createSkeleton
  rcases h1 : foldSteps dirStep skeletonDirs fs with ⟨err1 | fsD, t1⟩
  · refine ⟨fun fs1 hok => by simp at hok, fun e _ => ?_⟩
    intro hmem
    exact hdir Eff.writeDurable (by rw [h1]; exact hmem) rfl
  · have ht1 : Eff.writeDurable ∉ t1 := fun hmem =>
      hdir Eff.writeDurable (by rw [h1]; exact hmem) rfl
    rcases h2 : foldSteps (fileStep render)
        (skeletonFiles catalog cfg.projectRoot cfg.primaryLanguage) fsD with
      ⟨err2 | fsF, t2⟩
    · have ht2 : Eff.writeDurable ∉ t2 := fun hmem =>
        hfile fsD Eff.writeDurable (by rw [h2]; exact hmem) rfl
      simp only [h2]
      refine ⟨fun fs1 hok => by simp at hok, fun e _ => ?_⟩
      intro hmem
      rcases List.mem_append.mp hmem with hm | hm
      · exact ht1 hm
      · exact ht2 hm
    · have ht2 : Eff.writeDurable ∉ t2 := fun hmem =>
        hfile fsD Eff.writeDurable (by rw [h2]; exact hmem) rfl
      simp only [h2]
      refine ⟨fun fs1 _ => ⟨t1 ++ t2, by rw [List.append_assoc], ?_⟩,
        fun e he => by simp at he⟩
      intro hmem
      rcases List.mem_append.mp hmem with hm | hm
      · exact ht1 hm
      · exact ht2 hm

theorem c1_amended_durable_last_witness :
    ∃ fs1, (createSkeleton demoRender languagesInitFiles
        ⟨"/proj", "Ada", "MIT", "python"⟩ FS.empty).1 = .ok fs1 ∧
      ∃ t, (createSkeleton demoRender languagesInitFiles
          ⟨"/proj", "Ada", "MIT", "python"⟩ FS.empty).2 =
            t ++ [Eff.writeDurable] ∧ Eff.writeDurable ∉ t := by
  have hIsOk : (createSkeleton demoRender languagesInitFiles
      ⟨"/proj", "Ada", "MIT", "python"⟩ FS.empty).1.isOk = true := by decide
  rcases hok : (createSkeleton demoRender languagesInitFiles
      ⟨"/proj", "Ada", "MIT", "python"⟩ FS.empty).1 with e | fs1
  · rw [hok] at hIsOk; simp [Except.isOk, Except.toBool] at hIsOk
  · exact ⟨fs1, rfl,
      (c1_amended_durable_last demoRender languagesInitFiles
        ⟨"/proj", "Ada", "MIT", "python"⟩ FS.empty).1 fs1 hok⟩

/-- C6: `writeLicense` writes nothing and succeeds for license `"None"`;
for any other license value it renders the template `licenses/<license>`
(selected by exact name) with `{Year: the current year as a string,
Author: the supplied author}` and writes the result to the fixed
destination `LICENSE`; with the spec-modelled license rendering, the
written content contains the author string and the year string. -/
theorem c6_write_license (renderL : String → LicenseData → String)
    (year : Nat) (author license : String) (fs : FS) :
    (license = "None" →
      writeLicense renderL year author license fs = (.ok fs, [])) ∧
    (license ≠ "None" → "LICENSE" ∉ fs.dirs →
      writeLicense renderL year author license fs =
        (.ok { fs with
                 files := putEntries "LICENSE"
                   (renderL ("licenses/" ++ license) ⟨toString year, author⟩)
                   fs.files },
         [.writeTemplate ("licenses/" ++ license) "LICENSE"])) ∧
    (containsStr (renderLicenseModel ("licenses/" ++ license)
        ⟨toString year, author⟩) author ∧
     containsStr (renderLicenseModel ("licenses/" ++ license)
        ⟨toString year, author⟩) (toString year)) := by
  refine ⟨fun h => by simp [writeLicense, h], fun hne hdir => ?_, ?_, ?_⟩
  · simp [writeLicense, hne, writeDest, hdir]
  · unfold renderLicenseModel containsStr
    simp only [String.data_append]
    exact (List.suffix_append _ _).isInfix
  · unfold renderLicenseModel containsStr
    simp only [String.data_append, List.append_assoc]
    exact ⟨("licenses/" ++ license).data ++ "\nCopyright (c) ".data,
           " ".data ++ author.data, by simp⟩

theorem c6_write_license_witness :
    writeLicense renderLicenseModel 2026 "Ada" "None" FS.empty =
      (.ok FS.empty, []) ∧
    writeLicense renderLicenseModel 2026 "Ada" "MIT" FS.empty =
      (.ok { FS.empty with
               files := putEntries "LICENSE"
                 (renderLicenseModel "licenses/MIT" ⟨"2026", "Ada"⟩)
                 FS.empty.files },
       [.writeTemplate "licenses/MIT" "LICENSE"]) :=
  ⟨(c6_write_license renderLicenseModel 2026 "Ada" "None" FS.empty).1 rfl,
   (c6_write_license renderLicenseModel 2026 "Ada" "MIT" FS.empty).2.1
     (by decide) (by decide)⟩

theorem licenseLoop_ok_exists (env : Env) (flags : Flags)
    (hint : flags.nonInteractive = false) :
    ∀ (fuel cursor : Nat) (r : String × Nat),
      licenseLoop env flags cursor fuel = .ok r →
      ∃ k, (licenseChoice (env.inputs (cursor + k))).isSome = true := by
  intro fuel
  induction fuel with
  | zero =>
    intro cursor r h
    unfold licenseLoop getInput at h
    rw [hint] at h
    simp only [Bool.false_eq_true, if_false] at h
    rcases hc : licenseChoice (env.inputs cursor) with _ | l
    · rw [hc] at h; simp at h
    · exact ⟨0, by rw [Nat.add_zero, hc]; rfl⟩
  | succ f ih =>
    intro cursor r h
    unfold licenseLoop getInput at h
    rw [hint] at h
    simp only [Bool.false_eq_true, if_false] at h
    rcases hc : licenseChoice (env.inputs cursor) with _ | l
    · rw [hc] at h
      obtain ⟨k, hk⟩ := ih (cursor + 1) r h
      refine ⟨k + 1, ?_⟩
      have harith : cursor + (k + 1) = cursor + 1 + k := by omega
      rw [harith]; exact hk
    · exact ⟨0, by rw [Nat.add_zero, hc]; rfl⟩

theorem licenseLoop_terminates (env : Env) (flags : Flags)
    (hint : flags.nonInteractive = false) :
    ∀ (k cursor : Nat),
      (licenseChoice (env.inputs (cursor + k))).isSome = true →
      ∃ fuel r, licenseLoop env flags cursor fuel = .ok r := by
  intro k
  induction k with
  | zero =>
    intro cursor h
    rw [Nat.add_zero] at h
    rcases hc : licenseChoice (env.inputs cursor) with _ | l
    · rw [hc] at h; simp at h
    · refine ⟨0, (l, cursor + 1), ?_⟩
      unfold licenseLoop getInput
      rw [hint]
      simp [hc]
  | succ k ih =>
    intro cursor h
    rcases hc : licenseChoice (env.inputs cursor) with _ | l
    · have h' : (licenseChoice (env.inputs (cursor + 1 + k))).isSome = true := by
        have harith : cursor + 1 + k = cursor + (k + 1) := by omega
        rw [harith]; exact h
      obtain ⟨f, r, hf⟩ := ih (cursor + 1) h'
      refine ⟨f + 1, r, ?_⟩
      unfold licenseLoop getInput
      rw [hint]
      simp [hc]
      exact hf
    · refine ⟨0, (l, cursor + 1), ?_⟩
      unfold licenseLoop getInput
      rw [hint]
      simp [hc]

/-- C10: in interactive mode the license menu loop returns a selection
precisely when the input stream eventually yields a string parsing (via
`strconv.Atoi`) to an integer between 1 and the number of licenses; since
read errors are discarded, a stream exhausted to empty strings makes the
loop re-prompt forever (no fuel suffices), whereas at the language prompt
the same empty input immediately selects the default first supported
language. -/
theorem c10_license_loop_termination (env : Env) (flags : Flags)
    (cursor : Nat) (hint : flags.nonInteractive = false) :
    ((∃ fuel r, licenseLoop env flags cursor fuel = .ok r) ↔
      (∃ k n, atoi (env.inputs (cursor + k)) = some n ∧ 0 < n ∧
        n ≤ (licenses.length : Int))) ∧
    ((∀ k, env.inputs k = "") →
      ∀ fuel, ¬ ∃ r, licenseLoop env flags cursor fuel = .ok r) ∧
    (env.inputs cursor = "" →
      ∀ fuel, languageLoop env flags cursor fuel =
        .ok (languagesSupported.getD 0 "", cursor + 1)) := by
  have hchoice : ∀ s : String, (licenseChoice s).isSome = true ↔
      ∃ n, atoi s = some n ∧ 0 < n ∧ n ≤ (licenses.length : Int) := by
    intro s
    unfold licenseChoice
    rcases atoi s with _ | n
    · simp
    · by_cases hn : 0 < n ∧ n ≤ (licenses.length : Int)
      · simp [hn]
      · simp [hn]
  refine ⟨⟨?_, ?_⟩, ?_, ?_⟩
  · rintro ⟨fuel, r, h⟩
    obtain ⟨k, hk⟩ := licenseLoop_ok_exists env flags hint fuel cursor r h
    obtain ⟨n, hn⟩ := (hchoice _).mp hk
    exact ⟨k, n, hn⟩
  · rintro ⟨k, n, hn⟩
    exact licenseLoop_terminates env flags hint k cursor ((hchoice _).mpr ⟨n, hn⟩)
  · intro hempty fuel ⟨r, h⟩
    obtain ⟨k, hk⟩ := licenseLoop_ok_exists env flags hint fuel cursor r h
    rw [hempty (cursor + k)] at hk
    simp [licenseChoice, atoi] at hk
  · intro hempty fuel
    unfold languageLoop getInput
    rw [hint]
    simp [hempty]

theorem c10_license_loop_termination_witness :
    demoFlags.nonInteractive = false ∧
    (∀ fuel, ¬ ∃ r, licenseLoop demoEnv demoFlags 0 fuel = .ok r) ∧
    languageLoop demoEnv demoFlags 0 7 = .ok ("python", 1) :=
  ⟨rfl,
   (c10_license_loop_termination demoEnv demoFlags 0 rfl).2.1 (fun _ => rfl),
   (c10_license_loop_termination demoEnv demoFlags 0 rfl).2.2 rfl 7⟩

/-- C8: in non-interactive mode every attempted read of interactive input
fails the process at once with the dedicated input-required error; in
particular a run with `--non-interactive` and no `--license` flag exits
with that error with the filesystem untouched and no skeleton directory
created. -/
theorem c8_non_interactive (env : Env) (flags : Flags) (fs0 : FS)
    (fuel cursor : Nat) :
    (flags.nonInteractive = true →
      getInput env flags cursor =
        .error (.fatal "\nerror: input required in non-interactive mode")) ∧
    (env.persistedProjectRoot = "" → flags.nonInteractive = true →
     flags.license = "" →
      (runInit env flags fs0 fuel).outcome =
        .fatal "\nerror: input required in non-interactive mode" ∧
      (runInit env flags fs0 fuel).fs = fs0 ∧
      ∀ e ∈ (runInit env flags fs0 fuel).trace, ∀ d, e ≠ Eff.mkdir d) := by
  constructor
  · intro h
    simp [getInput, h]
  · intro hroot hni hlic
    by_cases hg : (!fs0.isEmpty && !flags.force) = true
    · simp [runInit, hroot, gatePhase, hg, confirmLoop, getInput, hni]
    · by_cases ha : flags.author = ""
      · simp [runInit, hroot, gatePhase, hg, authorPhase, ha, getInput, hni]
      · simp [runInit, hroot, gatePhase, hg, authorPhase, ha, licensePhase,
          hlic, licenseLoop, getInput, hni]

theorem c8_non_interactive_witness :
    (runInit demoEnv
        { author := "Ada", license := "", language := "python", force := true,
          nonInteractive := true } FS.empty 0).outcome =
      .fatal "\nerror: input required in non-interactive mode" :=
  ((c8_non_interactive demoEnv
      { author := "Ada", license := "", language := "python", force := true,
        nonInteractive := true } FS.empty 0 0).2 rfl rfl rfl).1

theorem gatePhase_trace (env : Env) (flags : Flags) (fs0 : FS) (fuel : Nat) :
    (gatePhase env flags fs0 fuel).2 = [Eff.readDirRoot] ∨
    (gatePhase env flags fs0 fuel).2 = [Eff.readDirRoot, Eff.promptConfirm] := by
  unfold gatePhase
  by_cases hg : (!fs0.isEmpty && !flags.force) = true
  · rw [if_pos hg]
    rcases confirmLoop env flags 0 fuel with o | c <;> simp
  · rw [if_neg hg]
    exact .inl rfl

theorem authorPhase_trace (env : Env) (flags : Flags) (c : Nat) :
    (authorPhase env flags c).2 = [] ∨
    (authorPhase env flags c).2 = [Eff.promptAuthor] := by
  unfold authorPhase
  by_cases ha : flags.author = ""
  · rw [if_pos ha]
    rcases getInput env flags c with o | p <;> simp
  · rw [if_neg ha]
    exact .inl rfl

theorem licensePhase_trace_ne (env : Env) (flags : Flags) (c fuel : Nat)
    (h : flags.license ≠ "") : (licensePhase env flags c fuel).2 = [] := by
  unfold licensePhase
  rw [if_neg h]
  by_cases hm : flags.license ∈ licenses
  · simp [hm]
  · simp [hm]

theorem languagePhase_trace (env : Env) (flags : Flags) (c fuel : Nat) :
    (languagePhase env flags c fuel).2 = [] ∨
    (languagePhase env flags c fuel).2 = [Eff.promptLanguageMenu] := by
  unfold languagePhase
  by_cases hl : flags.language = ""
  · rw [if_pos hl]
    rcases languageLoop env flags c fuel with o | p <;> simp
  · rw [if_neg hl]
    by_cases hm : flags.language ∈ languagesSupported
    · simp [hm]
    · simp [hm]

/-- Once the license is supplied via flag (non-empty), no branch of the run
ever shows the license selection menu. -/
theorem runInit_no_license_menu (env : Env) (flags : Flags) (fs0 : FS)
    (fuel : Nat) (h : flags.license ≠ "") :
    Eff.promptLicenseMenu ∉ (runInit env flags fs0 fuel).trace := by
  have ht0 : Eff.promptLicenseMenu ∉ (gatePhase env flags fs0 fuel).2 := by
    rcases gatePhase_trace env flags fs0 fuel with h0 | h0 <;> rw [h0] <;> decide
  have hta : ∀ c, Eff.promptLicenseMenu ∉ (authorPhase env flags c).2 := by
    intro c
    rcases authorPhase_trace env flags c with h0 | h0 <;> rw [h0] <;> decide
  have htg : ∀ c, Eff.promptLicenseMenu ∉ (languagePhase env flags c fuel).2 := by
    intro c
    rcases languagePhase_trace env flags c fuel with h0 | h0 <;> rw [h0] <;> decide
  have hskel : ∀ cfg fs, Eff.promptLicenseMenu ∉
      (createSkeleton env.render env.catalog cfg fs).2 := by
    intro cfg fs hmem
    rcases createSkeleton_effects env.render env.catalog cfg fs _ hmem with
      ⟨d, hd⟩ | ⟨p, hp⟩ | ⟨s, d, hsd⟩ | hw <;> simp_all
  have hwl : ∀ a l fs, Eff.promptLicenseMenu ∉
      (writeLicense env.renderL env.year a l fs).2 := by
    intro a l fs hmem
    unfold writeLicense at hmem
    by_cases hn : l = "None"
    · simp [hn] at hmem
    · rw [if_neg hn] at hmem
      split at hmem <;> simp at hmem
  have hrepo : ∀ fs, Eff.promptLicenseMenu ∉
      (initRepo env.gitOnPath env.gitInitOk fs).2 := by
    intro fs hmem
    unfold initRepo at hmem
    split_ifs at hmem
    · simp at hmem
    · simp at hmem
    · simp at hmem
    · exact absurd hmem (by decide)
  by_cases hroot : env.persistedProjectRoot = ""
  · unfold runInit
    rw [if_neg (by simp [hroot])]
    rcases hg : gatePhase env flags fs0 fuel with ⟨og | c0, t0⟩
    · rw [hg] at ht0
      simpa using ht0
    · rw [hg] at ht0
      simp only at ht0
      dsimp only
      rcases ha : authorPhase env flags c0 with ⟨oa | ⟨a, c1⟩, ta⟩
      · have hta1 : Eff.promptLicenseMenu ∉ ta := by
          have := hta c0; rw [ha] at this; simpa using this
        simp [List.mem_append, ht0, hta1]
      · have hta1 : Eff.promptLicenseMenu ∉ ta := by
          have := hta c0; rw [ha] at this; simpa using this
        dsimp only
        rcases hl : licensePhase env flags c1 fuel with ⟨ol | ⟨l, c2⟩, tl⟩
        · have htl1 : tl = [] := by
            have := licensePhase_trace_ne env flags c1 fuel h
            rw [hl] at this; simpa using this
          subst htl1
          simp [List.mem_append, ht0, hta1]
        · have htl1 : tl = [] := by
            have := licensePhase_trace_ne env flags c1 fuel h
            rw [hl] at this; simpa using this
          subst htl1
          dsimp only
          rcases hgl : languagePhase env flags c2 fuel with ⟨ogl | ⟨lang, c3⟩, tg⟩
          · have htg1 : Eff.promptLicenseMenu ∉ tg := by
              have := htg c2; rw [hgl] at this; simpa using this
            simp [List.mem_append, ht0, hta1, htg1]
          · have htg1 : Eff.promptLicenseMenu ∉ tg := by
              have := htg c2; rw [hgl] at this; simpa using this
            dsimp only
            rcases hs : createSkeleton env.render env.catalog
                ⟨env.cwd, a, l, lang⟩ fs0 with ⟨⟨m, fsE⟩ | fs1, ts⟩
            · have hts : Eff.promptLicenseMenu ∉ ts := by
                have := hskel ⟨env.cwd, a, l, lang⟩ fs0
                rw [hs] at this; simpa using this
              simp [List.mem_append, ht0, hta1, htg1, hts]
            · have hts : Eff.promptLicenseMenu ∉ ts := by
                have := hskel ⟨env.cwd, a, l, lang⟩ fs0
                rw [hs] at this; simpa using this
              dsimp only
              rcases hw : writeLicense env.renderL env.year a l fs1 with
                ⟨⟨m, fsE⟩ | fs2, tw⟩
              · have htw : Eff.promptLicenseMenu ∉ tw := by
                  have := hwl a l fs1; rw [hw] at this; simpa using this
                simp [List.mem_append, ht0, hta1, htg1, hts, htw]
              · have htw : Eff.promptLicenseMenu ∉ tw := by
                  have := hwl a l fs1; rw [hw] at this; simpa using this
                dsimp only
                rcases hr : initRepo env.gitOnPath env.gitInitOk fs2 with
                  ⟨orr | u, tr⟩
                · have htr : Eff.promptLicenseMenu ∉ tr := by
                    have := hrepo fs2; rw [hr] at this; simpa using this
                  simp [List.mem_append, ht0, hta1, htg1, hts, htw, htr]
                · have htr : Eff.promptLicenseMenu ∉ tr := by
                    have := hrepo fs2; rw [hr] at this; simpa using this
                  simp [List.mem_append, ht0, hta1, htg1, hts, htw, htr]
  · unfold runInit
    rw [if_pos hroot]
    simp

/-- C7: a license supplied via flag that is not exactly one of
MIT, BSD-3-Clause, None kills the run with "unknown license" leaving the
filesystem untouched (the trace holds no filesystem-writing or
version-control effect); a supplied value that is in the catalog is
accepted without the license menu ever being shown. -/
theorem c7_unknown_license (env : Env) (flags : Flags) (fs0 : FS)
    (fuel : Nat) :
    (env.persistedProjectRoot = "" → fs0.isEmpty = true →
     flags.author ≠ "" → flags.license ≠ "" → flags.license ∉ licenses →
      (runInit env flags fs0 fuel).outcome = .fatal "unknown license" ∧
      (runInit env flags fs0 fuel).fs = fs0 ∧
      ∀ e ∈ (runInit env flags fs0 fuel).trace, e.isFsWrite = false) ∧
    (flags.license ∈ licenses →
      Eff.promptLicenseMenu ∉ (runInit env flags fs0 fuel).trace) := by
  constructor
  · intro hroot hempty hauthor hlic hmem
    simp [runInit, hroot, gatePhase, hempty, authorPhase, hauthor,
      licensePhase, hlic, hmem, Eff.isFsWrite]
  · intro hmem
    have hne : flags.license ≠ "" := by
      intro h0
      rw [h0] at hmem
      exact (by decide : ("" : String) ∉ licenses) hmem
    exact runInit_no_license_menu env flags fs0 fuel hne

theorem c7_unknown_license_witness :
    (runInit demoEnv
        { author := "Ada", license := "Foo", language := "python",
          force := true, nonInteractive := false } FS.empty 0).outcome =
      .fatal "unknown license" ∧
    Eff.promptLicenseMenu ∉ (runInit demoEnv demoFlags FS.empty 0).trace :=
  ⟨((c7_unknown_license demoEnv
      { author := "Ada", license := "Foo", language := "python",
        force := true, nonInteractive := false } FS.empty 0).1
      rfl rfl (by decide) (by decide) (by decide)).1,
   (c7_unknown_license demoEnv demoFlags FS.empty 0).2 (by decide)⟩

/-! ### Characterization of skeleton application (for idempotence) -/

/-- All writes of a run, in order, as (destination, content) pairs: the
final state of the file list is the base overwritten by these. -/
def applyWrites (ws : List (String × String))
    (files : List (String × String)) : List (String × String) :=
  ws.foldl (fun fl w => putEntries w.1 w.2 fl) files

/-- Every directory ensured by the directory loop (each entry with all its
parents). -/
def dirClosure (l : List (String × Bool)) : List String :=
  l.flatMap (fun e => ancestors e.1)

/-- The placeholder-file writes of the directory loop, in order. -/
def keepWrites (l : List (String × Bool)) : List (String × String) :=
  (l.filter (fun e => e.2)).map (fun e => (e.1 ++ "/.gitkeep", ""))

/-- The template-file writes of the file loop, in order. -/
def fileWrites (render : String → String) (fl : List (String × String)) :
    List (String × String) :=
  fl.map (fun e => (e.2, render e.1))

def firstSome (a b : Option String) : Option String :=
  match a with
  | some v => some v
  | none => b

/-- The value of the last write at a key, if any. -/
def lastVal : List (String × String) → String → Option String
  | [], _ => none
  | w :: ws, k =>
    firstSome (lastVal ws k) (if w.1 = k then some w.2 else none)

/-- First-match lookup in the file list (the content visible at a path). -/
def lookupFile : List (String × String) → String → Option String
  | [], _ => none
  | kv :: fl, k => if kv.1 = k then some kv.2 else lookupFile fl k

theorem lookupFile_append_single (k p c : String)
    (fl : List (String × String)) (h : hasKey fl p = false) :
    lookupFile (fl ++ [(p, c)]) k =
      if p = k then some c else lookupFile fl k := by
  induction fl with
  | nil => simp [lookupFile]
  | cons a fl ih =>
    have hsplit : ¬(a.1 = p) ∧ hasKey fl p = false := by
      unfold hasKey at h ⊢
      simp only [List.any_cons, Bool.or_eq_false_iff,
        decide_eq_false_iff_not] at h
      exact ⟨h.1, h.2⟩
    by_cases hk : a.1 = k
    · have hkp : ¬ p = k := fun he => hsplit.1 (hk.trans he.symm)
      simp [lookupFile, hk, hkp]
    · simp [lookupFile, hk, ih hsplit.2]

theorem lookupFile_map_replace (k p c : String)
    (fl : List (String × String)) :
    lookupFile (fl.map (fun kv => if kv.1 = p then (p, c) else kv)) k =
      if p = k then (if hasKey fl p then some c else none)
      else lookupFile fl k := by
  induction fl with
  | nil => by_cases hk : p = k <;> simp [lookupFile, hasKey, hk]
  | cons a fl ih =>
    by_cases hap : a.1 = p
    · by_cases hk : p = k
      · simp [lookupFile, hap, hk, hasKey]
      · have hak : ¬ a.1 = k := fun h => hk (hap ▸ h)
        simp [lookupFile, hap, hk, hak, ih]
    · by_cases hk : a.1 = k
      · have hkp : ¬ p = k := fun he => hap (hk.trans he.symm)
        simp only [List.map_cons]
        rw [if_neg hap]
        simp [lookupFile, hk, hkp]
      · have hExt : hasKey (a :: fl) p = hasKey fl p := by
          unfold hasKey
          simp [List.any_cons, hap]
        simp only [List.map_cons]
        rw [if_neg hap]
        simp [lookupFile, hk, ih, hExt]

theorem lookupFile_putEntries (k p c : String)
    (fl : List (String × String)) :
    lookupFile (putEntries p c fl) k =
      if p = k then some c else lookupFile fl k := by
  unfold putEntries
  by_cases hp : hasKey fl p = true
  · rw [if_pos hp, lookupFile_map_replace, hp]
    simp
  · rw [if_neg hp, lookupFile_append_single k p c fl (by simpa using hp)]

theorem hasKey_map_replace (k p c : String) (fl : List (String × String)) :
    hasKey (fl.map (fun kv => if kv.1 = p then (p, c) else kv)) k =
      hasKey fl k := by
  induction fl with
  | nil => rfl
  | cons a fl ih =>
    by_cases hap : a.1 = p
    · rw [List.map_cons, if_pos hap]
      unfold hasKey at *
      simp only [List.any_cons, ih]
      rw [hap]
    · rw [List.map_cons, if_neg hap]
      unfold hasKey at *
      simp only [List.any_cons, ih]

theorem hasKey_putEntries (k p c : String) (fl : List (String × String)) :
    hasKey (putEntries p c fl) k = (hasKey fl k || decide (p = k)) := by
  unfold putEntries
  by_cases hp : hasKey fl p = true
  · rw [if_pos hp, hasKey_map_replace]
    by_cases hpk : p = k
    · subst hpk; simp [hp]
    · simp [hpk]
  · rw [if_neg hp]
    unfold hasKey
    simp [List.any_append]

theorem applyWrites_cons (w : String × String) (ws fl : List (String × String)) :
    applyWrites (w :: ws) fl = applyWrites ws (putEntries w.1 w.2 fl) := by
  simp [applyWrites]

theorem applyWrites_append (A B fl : List (String × String)) :
    applyWrites (A ++ B) fl = applyWrites B (applyWrites A fl) := by
  simp [applyWrites, List.foldl_append]

theorem lookupFile_applyWrites (k : String) :
    ∀ (ws fl : List (String × String)),
      lookupFile (applyWrites ws fl) k =
        firstSome (lastVal ws k) (lookupFile fl k) := by
  intro ws
  induction ws with
  | nil => intro fl; rfl
  | cons w ws ih =>
    intro fl
    rw [applyWrites_cons, ih, lookupFile_putEntries]
    rcases hl : lastVal ws k with _ | v
    · by_cases hw : w.1 = k <;> simp [lastVal, firstSome, hl, hw]
    · simp [lastVal, firstSome, hl]

theorem lookupFile_applyWrites_idem (ws fl : List (String × String))
    (k : String) :
    lookupFile (applyWrites ws (applyWrites ws fl)) k =
      lookupFile (applyWrites ws fl) k := by
  rw [lookupFile_applyWrites, lookupFile_applyWrites]
  rcases h : lastVal ws k with _ | v <;> simp [firstSome, h]

theorem hasKey_applyWrites (k : String) :
    ∀ (ws fl : List (String × String)),
      hasKey (applyWrites ws fl) k = (hasKey ws k || hasKey fl k) := by
  intro ws
  induction ws with
  | nil => intro fl; simp [applyWrites, hasKey]
  | cons w ws ih =>
    intro fl
    rw [applyWrites_cons, ih, hasKey_putEntries]
    unfold hasKey
    simp only [List.any_cons]
    simp [Bool.or_comm, Bool.or_left_comm, Bool.or_assoc]

theorem mem_addDirList (x : String) :
    ∀ (ds acc : List String), x ∈ addDirList ds acc ↔ x ∈ ds ∨ x ∈ acc := by
  intro ds
  induction ds with
  | nil => intro acc; simp [addDirList]
  | cons d ds ih =>
    intro acc
    show x ∈ addDirList ds (if d ∈ acc then acc else acc ++ [d]) ↔ _
    rw [ih]
    by_cases hd : d ∈ acc
    · rw [if_pos hd]
      simp only [List.mem_cons]
      constructor
      · tauto
      · rintro ((rfl | hx) | hx) <;> tauto
    · rw [if_neg hd]
      simp only [List.mem_cons, List.mem_append, List.mem_singleton]
      tauto

theorem addDirList_of_subset :
    ∀ (ds acc : List String), (∀ x ∈ ds, x ∈ acc) → addDirList ds acc = acc := by
  intro ds
  induction ds with
  | nil => intro acc _; rfl
  | cons d ds ih =>
    intro acc h
    show addDirList ds (if d ∈ acc then acc else acc ++ [d]) = acc
    rw [if_pos (h d (by simp))]
    exact ih acc (fun x hx => h x (by simp [hx]))

theorem addDirList_append (A B acc : List String) :
    addDirList (A ++ B) acc = addDirList B (addDirList A acc) := by
  simp [addDirList, List.foldl_append]

theorem dirStep_ok_spec (fs : FS) (e : String × Bool) (fs2 : FS)
    (t : List Eff) (h : dirStep fs e = (.ok fs2, t)) :
    fs2.dirs = addDirList (ancestors e.1) fs.dirs ∧
    fs2.files = (if e.2 then putEntries (e.1 ++ "/.gitkeep") "" fs.files
                 else fs.files) ∧
    fs2.durable = fs.durable ∧
    (∀ a ∈ ancestors e.1, hasKey fs.files a = false) ∧
    (e.2 = true → (e.1 ++ "/.gitkeep") ∉ fs.dirs) := by
  unfold dirStep at h
  rcases hm : mkdirAll e.1 fs with m | fs1
  · rw [hm] at h; simp at h
  · rw [hm] at h
    simp only at h
    unfold mkdirAll at hm
    by_cases hany : ((ancestors e.1).any fun a => hasKey fs.files a) = true
    · rw [if_pos hany] at hm; simp at hm
    · rw [if_neg hany] at hm
      simp only [Except.ok.injEq] at hm
      have hanc : ∀ a ∈ ancestors e.1, hasKey fs.files a = false := by
        intro a ha
        by_contra hc
        exact hany (List.any_eq_true.mpr ⟨a, ha, by simpa using hc⟩)
      have hdirs1 : fs1.dirs = addDirList (ancestors e.1) fs.dirs := by
        rw [← hm]
      have hfiles1 : fs1.files = fs.files := by rw [← hm]
      have hdur1 : fs1.durable = fs.durable := by rw [← hm]
      by_cases hk : e.2 = true
      · rw [if_pos hk] at h
        rcases hc : createEmpty (e.1 ++ "/.gitkeep") fs1 with m | fs2x
        · rw [hc] at h; simp at h
        · rw [hc] at h
          simp only [Prod.mk.injEq, Except.ok.injEq] at h
          unfold createEmpty at hc
          by_cases hin : (e.1 ++ "/.gitkeep") ∈ fs1.dirs
          · rw [if_pos hin] at hc; simp at hc
          · rw [if_neg hin] at hc
            simp only [Except.ok.injEq] at hc
            have hf2 : fs2 = { fs1 with
                files := putEntries (e.1 ++ "/.gitkeep") "" fs1.files } := by
              rw [← h.1, ← hc]
            refine ⟨?_, ?_, ?_, hanc, ?_⟩
            · rw [hf2]; exact hdirs1
            · rw [hf2, if_pos hk]
              simp [hfiles1]
            · rw [hf2]; exact hdur1
            · intro _
              intro hmem
              exact hin (by rw [hdirs1]; exact (mem_addDirList _ _ _).mpr (.inr hmem))
      · rw [if_neg hk] at h
        simp only [Prod.mk.injEq, Except.ok.injEq] at h
        refine ⟨?_, ?_, ?_, hanc, fun hx => absurd hx hk⟩
        · rw [← h.1]; exact hdirs1
        · rw [← h.1, if_neg hk]; exact hfiles1
        · rw [← h.1]; exact hdur1

theorem dirFold_ok_spec :
    ∀ (l : List (String × Bool)) (fs fsD : FS) (t : List Eff),
      foldSteps dirStep l fs = (.ok fsD, t) →
      fsD.dirs = addDirList (dirClosure l) fs.dirs ∧
      fsD.files = applyWrites (keepWrites l) fs.files ∧
      fsD.durable = fs.durable ∧
      (∀ e ∈ l, ∀ a ∈ ancestors e.1, hasKey fs.files a = false) ∧
      (∀ e ∈ l, e.2 = true → (e.1 ++ "/.gitkeep") ∉ fs.dirs) := by
  intro l
  induction l with
  | nil =>
    intro fs fsD t h
    simp only [foldSteps, Prod.mk.injEq, Except.ok.injEq] at h
    rw [← h.1]
    simp [dirClosure, keepWrites, applyWrites, addDirList]
  | cons x xs ih =>
    intro fs fsD t h
    unfold foldSteps at h
    rcases hs : dirStep fs x with ⟨err | fs2, t1⟩
    · rw [hs] at h; simp at h
    · rw [hs] at h
      simp only at h
      rcases hr : foldSteps dirStep xs fs2 with ⟨r2, t2⟩
      rw [hr] at h
      simp only [Prod.mk.injEq] at h
      cases r2 with
      | error err2 => simp at h
      | ok fsD2 =>
        have hD : fsD2 = fsD := by simpa using h.1
        subst hD
        obtain ⟨hd1, hf1, hu1, hanc1, hgk1⟩ := dirStep_ok_spec fs x fs2 t1 hs
        obtain ⟨hd2, hf2, hu2, hanc2, hgk2⟩ := ih fs2 fsD2 t2 hr
        have hclosure : dirClosure (x :: xs) = ancestors x.1 ++ dirClosure xs := by
          simp [dirClosure]
        refine ⟨?_, ?_, ?_, ?_, ?_⟩
        · rw [hd2, hd1, hclosure, addDirList_append]
        · rw [hf2, hf1]
          by_cases hx : x.2 = true
          · rw [if_pos hx]
            have : keepWrites (x :: xs) =
                (x.1 ++ "/.gitkeep", "") :: keepWrites xs := by
              simp [keepWrites, List.filter_cons, hx]
            rw [this, applyWrites_cons]
          · rw [if_neg hx]
            have : keepWrites (x :: xs) = keepWrites xs := by
              simp [keepWrites, List.filter_cons, hx]
            rw [this]
        · rw [hu2, hu1]
        · intro e he a ha
          rcases List.mem_cons.mp he with rfl | he2
          · exact hanc1 a ha
          · have h2 := hanc2 e he2 a ha
            by_cases hx : x.2 = true
            · rw [hf1, if_pos hx, hasKey_putEntries] at h2
              simpa using (Bool.or_eq_false_iff.mp h2).1
            · rw [hf1, if_neg hx] at h2
              exact h2
        · intro e he hk
          rcases List.mem_cons.mp he with rfl | he2
          · exact hgk1 hk
          · have h2 := hgk2 e he2 hk
            intro hmem
            exact h2 (by
              rw [hd1]
              exact (mem_addDirList _ _ _).mpr (.inr hmem))

theorem fileFold_ok_spec (render : String → String) :
    ∀ (fl : List (String × String)) (fs fsF : FS) (t : List Eff),
      foldSteps (fileStep render) fl fs = (.ok fsF, t) →
      fsF.dirs = fs.dirs ∧
      fsF.files = applyWrites (fileWrites render fl) fs.files ∧
      fsF.durable = fs.durable ∧
      (∀ e ∈ fl, e.2 ∉ fs.dirs) := by
  intro fl
  induction fl with
  | nil =>
    intro fs fsF t h
    simp only [foldSteps, Prod.mk.injEq, Except.ok.injEq] at h
    rw [← h.1]
    simp [fileWrites, applyWrites]
  | cons x xs ih =>
    intro fs fsF t h
    unfold foldSteps at h
    rcases hs : fileStep render fs x with ⟨err | fs2, t1⟩
    · rw [hs] at h; simp at h
    · rw [hs] at h
      simp only at h
      rcases hr : foldSteps (fileStep render) xs fs2 with ⟨r2, t2⟩
      rw [hr] at h
      simp only [Prod.mk.injEq] at h
      cases r2 with
      | error err2 => simp at h
      | ok fsF2 =>
        have hD : fsF2 = fsF := by simpa using h.1
        subst hD
        unfold fileStep at hs
        rcases hw : writeDest x.2 (render x.1) fs with m | fs2x
        · rw [hw] at hs; simp at hs
        · rw [hw] at hs
          simp only [Prod.mk.injEq, Except.ok.injEq] at hs
          unfold writeDest at hw
          by_cases hin : x.2 ∈ fs.dirs
          · rw [if_pos hin] at hw; simp at hw
          · rw [if_neg hin] at hw
            simp only [Except.ok.injEq] at hw
            have hfs2 : fs2 = { fs with
                files := putEntries x.2 (render x.1) fs.files } := by
              rw [← hs.1, ← hw]
            obtain ⟨hd2, hf2, hu2, hdest2⟩ := ih fs2 fsF2 t2 hr
            refine ⟨?_, ?_, ?_, ?_⟩
            · rw [hd2, hfs2]
            · rw [hf2, hfs2]
              have : fileWrites render (x :: xs) =
                  (x.2, render x.1) :: fileWrites render xs := by
                simp [fileWrites]
              rw [this, applyWrites_cons]
            · rw [hu2, hfs2]
            · intro e he
              rcases List.mem_cons.mp he with rfl | he2
              · exact hin
              · have := hdest2 e he2
                rw [hfs2] at this
                exact this

theorem dirFold_runs :
    ∀ (l : List (String × Bool)) (fs : FS),
      (∀ e ∈ l, ∀ a ∈ ancestors e.1, hasKey fs.files a = false) →
      (∀ e ∈ l, ∀ a ∈ ancestors e.1, hasKey (keepWrites l) a = false) →
      (∀ e ∈ l, e.2 = true →
        (e.1 ++ "/.gitkeep") ∉ addDirList (dirClosure l) fs.dirs) →
      ∃ fsD t, foldSteps dirStep l fs = (.ok fsD, t) := by
  intro l
  induction l with
  | nil => intro fs _ _ _; exact ⟨fs, [], rfl⟩
  | cons x xs ih =>
    intro fs H1 H2 H3
    have hany : ((ancestors x.1).any fun a => hasKey fs.files a) = false := by
      by_contra hc
      obtain ⟨a, ha, hpa⟩ :=
        List.any_eq_true.mp (Bool.not_eq_false _ ▸ hc)
      rw [H1 x (by simp) a ha] at hpa
      exact absurd hpa (by simp)
    have hmk : mkdirAll x.1 fs =
        .ok { fs with dirs := addDirList (ancestors x.1) fs.dirs } := by
      unfold mkdirAll
      rw [if_neg (by simp [hany])]
    have hmem_trans : ∀ y,
        y ∈ addDirList (dirClosure xs) (addDirList (ancestors x.1) fs.dirs) →
        y ∈ addDirList (dirClosure (x :: xs)) fs.dirs := by
      intro y hy
      rcases (mem_addDirList y _ _).mp hy with hc | hd
      · obtain ⟨e, he, hye⟩ := List.mem_flatMap.mp hc
        exact (mem_addDirList y _ _).mpr
          (.inl (List.mem_flatMap.mpr ⟨e, by simp [he], hye⟩))
      · rcases (mem_addDirList y _ _).mp hd with h1 | h2
        · exact (mem_addDirList y _ _).mpr
            (.inl (List.mem_flatMap.mpr ⟨x, by simp, h1⟩))
        · exact (mem_addDirList y _ _).mpr (.inr h2)
    by_cases hx2 : x.2 = true
    · have hgk : (x.1 ++ "/.gitkeep") ∉ addDirList (ancestors x.1) fs.dirs := by
        intro hmem
        apply H3 x (by simp) hx2
        rcases (mem_addDirList _ _ _).mp hmem with h1 | h2
        · exact (mem_addDirList _ _ _).mpr
            (.inl (List.mem_flatMap.mpr ⟨x, by simp, h1⟩))
        · exact (mem_addDirList _ _ _).mpr (.inr h2)
      have hce : createEmpty (x.1 ++ "/.gitkeep")
          { fs with dirs := addDirList (ancestors x.1) fs.dirs } =
          .ok { fs with
                dirs := addDirList (ancestors x.1) fs.dirs,
                files := putEntries (x.1 ++ "/.gitkeep") "" fs.files } := by
        unfold createEmpty
        rw [if_neg hgk]
      have hstep : dirStep fs x =
          (.ok { fs with
                 dirs := addDirList (ancestors x.1) fs.dirs,
                 files := putEntries (x.1 ++ "/.gitkeep") "" fs.files },
           [Eff.mkdir x.1, Eff.createFile (x.1 ++ "/.gitkeep")]) := by
        unfold dirStep
        rw [hmk]
        simp only
        rw [if_pos hx2, hce]
      have hkw : keepWrites (x :: xs) =
          (x.1 ++ "/.gitkeep", "") :: keepWrites xs := by
        simp [keepWrites, List.filter_cons, hx2]
      have H1' : ∀ e ∈ xs, ∀ a ∈ ancestors e.1,
          hasKey (putEntries (x.1 ++ "/.gitkeep") "" fs.files) a = false := by
        intro e he a ha
        rw [hasKey_putEntries]
        apply Bool.or_eq_false_iff.mpr
        refine ⟨H1 e (by simp [he]) a ha, ?_⟩
        have h2 := H2 e (by simp [he]) a ha
        rw [hkw] at h2
        unfold hasKey at h2
        simp only [List.any_cons, Bool.or_eq_false_iff] at h2
        simpa using h2.1
      have H2' : ∀ e ∈ xs, ∀ a ∈ ancestors e.1,
          hasKey (keepWrites xs) a = false := by
        intro e he a ha
        have h2 := H2 e (by simp [he]) a ha
        rw [hkw] at h2
        unfold hasKey at h2 ⊢
        simp only [List.any_cons, Bool.or_eq_false_iff] at h2
        exact h2.2
      have H3' : ∀ e ∈ xs, e.2 = true → (e.1 ++ "/.gitkeep") ∉
          addDirList (dirClosure xs)
            ({ fs with
               dirs := addDirList (ancestors x.1) fs.dirs,
               files := putEntries (x.1 ++ "/.gitkeep") "" fs.files } : FS).dirs := by
        intro e he hk hmem
        exact H3 e (by simp [he]) hk (hmem_trans _ hmem)
      obtain ⟨fsD, t2, hfold⟩ := ih
        { fs with
          dirs := addDirList (ancestors x.1) fs.dirs,
          files := putEntries (x.1 ++ "/.gitkeep") "" fs.files }
        H1' H2' H3'
      refine ⟨fsD,
        [Eff.mkdir x.1, Eff.createFile (x.1 ++ "/.gitkeep")] ++ t2, ?_⟩
      unfold foldSteps
      rw [hstep]
      simp only
      rw [hfold]
    · have hstep : dirStep fs x =
          (.ok { fs with dirs := addDirList (ancestors x.1) fs.dirs },
           [Eff.mkdir x.1]) := by
        unfold dirStep
        rw [hmk]
        simp only
        rw [if_neg hx2]
      have hkw : keepWrites (x :: xs) = keepWrites xs := by
        simp [keepWrites, List.filter_cons, hx2]
      have H1' : ∀ e ∈ xs, ∀ a ∈ ancestors e.1,
          hasKey fs.files a = false := by
        intro e he a ha
        exact H1 e (by simp [he]) a ha
      have H2' : ∀ e ∈ xs, ∀ a ∈ ancestors e.1,
          hasKey (keepWrites xs) a = false := by
        intro e he a ha
        have h2 := H2 e (by simp [he]) a ha
        rw [hkw] at h2
        exact h2
      have H3' : ∀ e ∈ xs, e.2 = true → (e.1 ++ "/.gitkeep") ∉
          addDirList (dirClosure xs)
            ({ fs with dirs := addDirList (ancestors x.1) fs.dirs } : FS).dirs := by
        intro e he hk hmem
        exact H3 e (by simp [he]) hk (hmem_trans _ hmem)
      obtain ⟨fsD, t2, hfold⟩ := ih
        { fs with dirs := addDirList (ancestors x.1) fs.dirs } H1' H2' H3'
      refine ⟨fsD, [Eff.mkdir x.1] ++ t2, ?_⟩
      unfold foldSteps
      rw [hstep]
      simp only
      rw [hfold]

theorem fileFold_runs (render : String → String) :
    ∀ (fl : List (String × String)) (fs : FS),
      (∀ e ∈ fl, e.2 ∉ fs.dirs) →
      ∃ fsF t, foldSteps (fileStep render) fl fs = (.ok fsF, t) := by
  intro fl
  induction fl with
  | nil => intro fs _; exact ⟨fs, [], rfl⟩
  | cons x xs ih =>
    intro fs H
    have hw : writeDest x.2 (render x.1) fs =
        .ok { fs with files := putEntries x.2 (render x.1) fs.files } := by
      unfold writeDest
      rw [if_neg (H x (by simp))]
    have hstep : fileStep render fs x =
        (.ok { fs with files := putEntries x.2 (render x.1) fs.files },
         [Eff.writeTemplate x.1 x.2]) := by
      unfold fileStep
      rw [hw]
    obtain ⟨fsF, t2, hfold⟩ := ih
      { fs with files := putEntries x.2 (render x.1) fs.files }
      (fun e he hmem => H e (by simp [he]) hmem)
    refine ⟨fsF, [Eff.writeTemplate x.1 x.2] ++ t2, ?_⟩
    unfold foldSteps
    rw [hstep]
    simp only
    rw [hfold]

/-- C4: skeleton application is idempotent: if applying it to a tree
succeeds, applying it again to the resulting tree succeeds as well
(re-creating the existing directories is not an error, placeholders and
templates are rewritten with identical content) and yields the same
directory set, the same content at every file path, and the same durable
configuration, for every configuration and language catalog. -/
theorem c4_skeleton_idempotent (render : String → String)
    (catalog : String → List (String × String)) (cfg : Config) (fs fs1 : FS)
    (h : (createSkeleton render catalog cfg fs).1 = .ok fs1) :
    ∃ fs2, (createSkeleton render catalog cfg fs1).1 = .ok fs2 ∧
      fs2.dirs = fs1.dirs ∧
      (∀ p, lookupFile fs2.files p = lookupFile fs1.files p) ∧
      fs2.durable = fs1.durable := by
  unfold createSkeleton at h
  rcases h1 : foldSteps dirStep skeletonDirs fs with ⟨e1 | fsD, t1⟩
  · rw [h1] at h; simp at h
  · rw [h1] at h
    simp only at h
    rcases h2 : foldSteps (fileStep render)
        (skeletonFiles catalog cfg.projectRoot cfg.primaryLanguage) fsD with
      ⟨e2 | fsF, t2⟩
    · rw [h2] at h; simp at h
    · rw [h2] at h
      simp only at h
      have hfs1 : fs1 = writeDurableConfig cfg fsF := by
        simpa using h.symm
      obtain ⟨hDdirs, hDfiles, hDdur, hanc, hgk0⟩ :=
        dirFold_ok_spec skeletonDirs fs fsD t1 h1
      obtain ⟨hFdirs, hFfiles, hFdur, hdest⟩ :=
        fileFold_ok_spec render _ fsD fsF t2 h2
      have hkeepD : ∀ e ∈ skeletonDirs, ∀ a ∈ ancestors e.1,
          hasKey (keepWrites skeletonDirs) a = false := by decide
      have hgkclosD : ∀ e ∈ skeletonDirs, e.2 = true →
          (e.1 ++ "/.gitkeep") ∉ dirClosure skeletonDirs := by decide
      have h1dirs : fs1.dirs = addDirList (dirClosure skeletonDirs) fs.dirs := by
        rw [hfs1]
        show fsF.dirs = _
        rw [hFdirs, hDdirs]
      have h1files : fs1.files =
          applyWrites (keepWrites skeletonDirs ++ fileWrites render
            (skeletonFiles catalog cfg.projectRoot cfg.primaryLanguage))
            fs.files := by
        rw [hfs1]
        show fsF.files = _
        rw [hFfiles, hDfiles, ← applyWrites_append]
      have h1dur : fs1.durable = some cfg := by
        rw [hfs1]
        rfl
      have hancClos : ∀ e ∈ skeletonDirs, ∀ a ∈ ancestors e.1,
          a ∈ dirClosure skeletonDirs := fun e he a ha =>
        List.mem_flatMap.mpr ⟨e, he, ha⟩
      have H1 : ∀ e ∈ skeletonDirs, ∀ a ∈ ancestors e.1,
          hasKey fs1.files a = false := by
        intro e he a ha
        rw [h1files, hasKey_applyWrites]
        apply Bool.or_eq_false_iff.mpr
        constructor
        · unfold hasKey
          rw [List.any_append]
          apply Bool.or_eq_false_iff.mpr
          constructor
          · exact hkeepD e he a ha
          · by_contra hc
            obtain ⟨w, hw, hwk⟩ :=
              List.any_eq_true.mp (Bool.not_eq_false _ ▸ hc)
            obtain ⟨e2, he2, rfl⟩ := List.mem_map.mp hw
            have hea : e2.2 = a := by simpa using hwk
            apply hdest e2 he2
            rw [hDdirs, hea]
            exact (mem_addDirList _ _ _).mpr (.inl (hancClos e he a ha))
        · exact hanc e he a ha
      have H3 : ∀ e ∈ skeletonDirs, e.2 = true → (e.1 ++ "/.gitkeep") ∉
          addDirList (dirClosure skeletonDirs) fs1.dirs := by
        intro e he hk hmem
        rcases (mem_addDirList _ _ _).mp hmem with hc | hd
        · exact hgkclosD e he hk hc
        · rw [h1dirs] at hd
          rcases (mem_addDirList _ _ _).mp hd with hc2 | hd2
          · exact hgkclosD e he hk hc2
          · exact hgk0 e he hk hd2
      obtain ⟨fsD2, t1x, hfold1⟩ := dirFold_runs skeletonDirs fs1 H1 hkeepD H3
      obtain ⟨hD2dirs, hD2files, hD2dur, hx1, hx2⟩ :=
        dirFold_ok_spec skeletonDirs fs1 fsD2 t1x hfold1
      have hclosSub : ∀ y ∈ dirClosure skeletonDirs, y ∈ fs1.dirs := by
        intro y hy
        rw [h1dirs]
        exact (mem_addDirList _ _ _).mpr (.inl hy)
      have hD2dirsEq : fsD2.dirs = fs1.dirs := by
        rw [hD2dirs, addDirList_of_subset _ _ hclosSub]
      have Hf : ∀ e ∈ skeletonFiles catalog cfg.projectRoot cfg.primaryLanguage,
          e.2 ∉ fsD2.dirs := by
        intro e he
        rw [hD2dirsEq, h1dirs, ← hDdirs]
        exact hdest e he
      obtain ⟨fsF2, t2x, hfold2⟩ := fileFold_runs render _ fsD2 Hf
      obtain ⟨hF2dirs, hF2files, hF2dur, hy1⟩ :=
        fileFold_ok_spec render _ fsD2 fsF2 t2x hfold2
      refine ⟨writeDurableConfig cfg fsF2, ?_, ?_, ?_, ?_⟩
      · unfold createSkeleton
        rw [hfold1]
        simp only
        rw [hfold2]
      · show fsF2.dirs = fs1.dirs
        rw [hF2dirs, hD2dirsEq]
      · intro p
        show lookupFile fsF2.files p = lookupFile fs1.files p
        rw [hF2files, hD2files, ← applyWrites_append, h1files]
        exact lookupFile_applyWrites_idem _ _ p
      · show some cfg = fs1.durable
        rw [h1dur]

theorem c4_skeleton_idempotent_witness :
    ∃ fs1, (createSkeleton demoRender languagesInitFiles
        ⟨"/proj", "Ada", "MIT", "python"⟩ FS.empty).1 = .ok fs1 ∧
      ∃ fs2, (createSkeleton demoRender languagesInitFiles
          ⟨"/proj", "Ada", "MIT", "python"⟩ fs1).1 = .ok fs2 ∧
        fs2.dirs = fs1.dirs ∧
        (∀ p, lookupFile fs2.files p = lookupFile fs1.files p) ∧
        fs2.durable = fs1.durable := by
  have hIsOk : (createSkeleton demoRender languagesInitFiles
      ⟨"/proj", "Ada", "MIT", "python"⟩ FS.empty).1.isOk = true := by decide
  rcases hok : (createSkeleton demoRender languagesInitFiles
      ⟨"/proj", "Ada", "MIT", "python"⟩ FS.empty).1 with e | fs1
  · rw [hok] at hIsOk; simp [Except.isOk, Except.toBool] at hIsOk
  · exact ⟨fs1, rfl, c4_skeleton_idempotent demoRender languagesInitFiles
      ⟨"/proj", "Ada", "MIT", "python"⟩ FS.empty fs1 hok⟩

theorem c5_amended_universal_dests_witness :
    isAbs "/proj" = true ∧
    universalFiles "/proj" "python" =
      [("gitignore/python", ".gitignore"),
       ("docker/Dockerfile", "/proj/Dockerfile"),
       ("docker/docker-compose.yml", "/proj/docker-compose.yml")] :=
  ⟨by decide,
   by
    have h := (c5_amended_universal_dests "/proj" "python" (by decide)).1
    rw [h]; decide⟩

end Ccds
